import Mathlib

/-!
Verification development for the clood triage pipeline
(`issue_catfight_processor.py`, `triage_analyze.py`, `triage_report.py`,
`triage_logger.py`). The Python text-extraction code is regex driven; here
every regex is embedded as an explicit character-level matcher with the same
semantics (ordered alternation, greedy repetition where equivalent to maximal
munch, case folding for IGNORECASE patterns, word boundaries). Python floats
appearing in the transcripts are modelled as exact rationals; fallible
parsing (a `ValueError` escaping `parse_results_file`) is modelled with
`Except`.
-/

namespace Clood

/-- Python `\s` (ASCII white space: space, tab, newline, carriage return,
vertical tab, form feed). -/
def pyWs (c : Char) : Bool :=
  c == ' ' || c == '\t' || c == '\n' || c == '\r' ||
  c == Char.ofNat 11 || c == Char.ofNat 12

/-- Python `\w` (ASCII word character). -/
def isWordChar (c : Char) : Bool :=
  c.isAlpha || c.isDigit || c == '_'

/-- Case-insensitive character comparison, used for `re.IGNORECASE` patterns. -/
def lowEq (a b : Char) : Bool :=
  a.toLower == b.toLower

/-- Strip a literal pattern off the front of the input, case-insensitively;
returns the rest of the input on success. -/
def dropPrefixCI : List Char → List Char → Option (List Char)
  | [], cs => some cs
  | _ :: _, [] => none
  | p :: ps, c :: cs => if lowEq c p then dropPrefixCI ps cs else none

/-- Strip a literal pattern off the front of the input, case-sensitively. -/
def dropPrefixCS : List Char → List Char → Option (List Char)
  | [], cs => some cs
  | _ :: _, [] => none
  | p :: ps, c :: cs => if c == p then dropPrefixCS ps cs else none

/-- Greedy `+` repetition of a character class: at least one character. -/
def takeWhile1 (p : Char → Bool) (cs : List Char) : Option (List Char × List Char) :=
  let t := cs.takeWhile p
  if t.isEmpty then none else some (t, cs.dropWhile p)

/-- The ordered alternation `(XS|S|M|L|XL)` of the scope patterns
(IGNORECASE); the capture is returned upper-cased, as the Python callers
apply `.upper()` to it. -/
def pSize (cs : List Char) : Option (String × List Char) :=
  match dropPrefixCI "xs".toList cs with
  | some r => some ("XS", r)
  | none =>
  match dropPrefixCI "s".toList cs with
  | some r => some ("S", r)
  | none =>
  match dropPrefixCI "m".toList cs with
  | some r => some ("M", r)
  | none =>
  match dropPrefixCI "l".toList cs with
  | some r => some ("L", r)
  | none =>
  match dropPrefixCI "xl".toList cs with
  | some r => some ("XL", r)
  | none => none

/-- Matcher for `\*\*Size:\*\*\s*(XS|S|M|L|XL)` (IGNORECASE). -/
def mSizeBold (cs : List Char) : Option (String × List Char) :=
  match dropPrefixCI "**size:**".toList cs with
  | some r => pSize (r.dropWhile pyWs)
  | none => none

/-- Matcher for `Size:\s*(XS|S|M|L|XL)` (IGNORECASE). -/
def mSizePlain (cs : List Char) : Option (String × List Char) :=
  match dropPrefixCI "size:".toList cs with
  | some r => pSize (r.dropWhile pyWs)
  | none => none

/-- Matcher for `\bSize\b[:\s]*(XS|S|M|L|XL)` (IGNORECASE); `prev` is the
character before the current position, for the word boundary. -/
def mSizeWordB (prev : Option Char) (cs : List Char) : Option (String × List Char) :=
  let okBefore := match prev with
    | none => true
    | some c => !(isWordChar c)
  if okBefore then
    match dropPrefixCI "size".toList cs with
    | some r =>
      let okAfter := match r.head? with
        | none => true
        | some c => !(isWordChar c)
      if okAfter then pSize (r.dropWhile (fun c => c == ':' || pyWs c)) else none
    | none => none
  else none

/-- `re.findall` style scan: try the matcher at every position, continuing
after the end of each match; `prev` tracks the previous character for word
boundaries. The fuel argument is initialised to input length + 1. -/
def reScan {α : Type} (m : Option Char → List Char → Option (α × List Char)) :
    Nat → Option Char → List Char → List α
  | 0, _, _ => []
  | _ + 1, _, [] => []
  | n + 1, prev, c :: cs =>
    match m prev (c :: cs) with
    | some (v, rest) =>
      let k := (c :: cs).length - rest.length
      v :: reScan m n (((c :: cs).take k).getLast?) rest
    | none => reScan m n (some c) cs

/-- Run a `findall` scan over a string. -/
def reFindAll {α : Type} (m : Option Char → List Char → Option (α × List Char))
    (s : String) : List α :=
  reScan m (s.toList.length + 1) none s.toList

/-- `extract_size_estimates` from `issue_catfight_processor.py`: every match
of each of the three patterns, tried independently over the whole text, is
collected (so one occurrence may be counted once per pattern variant). -/
def extract_size_estimates (s : String) : List String :=
  reFindAll (fun _ cs => mSizeBold cs) s ++
  reFindAll (fun _ cs => mSizePlain cs) s ++
  reFindAll mSizeWordB s

/-- Lower-case a character list, modelling Python `str.lower()` on ASCII. -/
def lowList (cs : List Char) : List Char :=
  cs.map Char.toLower

/-- Contiguous-substring test over character lists (Python `in` on `str`). -/
def hasSubList (sub : List Char) : List Char → Bool
  | [] => sub.isEmpty
  | c :: cs => sub.isPrefixOf (c :: cs) || hasSubList sub cs

/-- Python substring test `sub in text.lower()` (the needles used are already
lower-case). -/
def containsCI (sub : String) (cs : List Char) : Bool :=
  hasSubList (lowList sub.toList) (lowList cs)

/-- The fixed hedge-phrase list of `extract_open_questions`. -/
def hedgePhrases : List String :=
  ["open question", "unclear", "need more information", "needs clarification",
   "ambiguous", "not specified", "missing requirement"]

/-- `extract_open_questions` from `issue_catfight_processor.py`. -/
def extract_open_questions (s : String) : Bool :=
  hedgePhrases.any (fun ind => containsCI ind s.toList)

/-- Dedup keeping first occurrences: iteration order of a Python `Counter`
(insertion order of the first occurrence of each key). -/
def firstOccur (l : List String) : List String :=
  l.foldl (fun acc x => if x ∈ acc then acc else acc ++ [x]) []

/-- First entry with the (strictly) largest count, earlier entries winning
ties: the semantics of `Counter.most_common(1)[0]` / stable descending sort. -/
def pickTop : List (String × Nat) → Option (String × Nat)
  | [] => none
  | p :: rest =>
    match pickTop rest with
    | none => some p
    | some q => if p.2 < q.2 then some q else some p

/-- The `Counter(sizes)` items in iteration order. -/
def counterList (sizes : List String) : List (String × Nat) :=
  (firstOccur sizes).map (fun s => (s, sizes.count s))

/-- The scope-label decision inside `analyze_results`: with a non-empty vote
list, `scope:<size>` when the most common count is a strict majority
(`most_common_count > total/2`), else `scope-disputed`; `none` when there are
no votes. -/
def size_label (sizes : List String) : Option String :=
  match pickTop (counterList sizes) with
  | none => none
  | some (topS, topC) =>
    if sizes.length < 2 * topC then some ("scope:" ++ topS)
    else some "scope-disputed"

/-- The label list produced by `analyze_results` in
`issue_catfight_processor.py` (the labels component of its return value). -/
def analyze_results_labels (s : String) : List String :=
  (match size_label (extract_size_estimates s) with
   | some l => [l]
   | none => []) ++
  (if extract_open_questions s then ["needs-clarification"] else ["actionable"])

/-- `should_process` from `issue_catfight_processor.py`: the pure
skip/process decision over an issue's label names and the derived host tag. -/
def should_process (labels : List String) (hostname_tag : String) : Bool × String :=
  if hostname_tag ∈ labels ∧ "needs-retriage" ∉ labels then
    (false, "already triaged by this machine")
  else if "triaged" ∈ labels ∧ "needs-retriage" ∉ labels then
    (false, "already triaged")
  else (true, "ready to process")

/-! Result parser (`triage_analyze.py`). -/

/-- Digit run to a natural number. -/
def digitsToNat (ds : List Char) : Nat :=
  ds.foldl (fun a c => 10 * a + (c.toNat - 48)) 0

/-- Exact value of a decimal literal with integer digits and fraction
digits, modelling Python `float` on the matched groups. -/
def decToRat (intDs fracDs : List Char) : ℚ :=
  (digitsToNat intDs : ℚ) + (digitsToNat fracDs : ℚ) / ((10 : ℚ) ^ fracDs.length)

/-- Matcher for the number shape `\d+\.?\d*` (as in `DONE <secs>s` and
`<toks> tok/s`), returning its exact value. Every string this matches is a
valid Python float literal. -/
def pNumber (cs : List Char) : Option (ℚ × List Char) :=
  match takeWhile1 Char.isDigit cs with
  | none => none
  | some (ds, r) =>
    match r with
    | '.' :: r2 => some (decToRat ds (r2.takeWhile Char.isDigit), r2.dropWhile Char.isDigit)
    | _ => some (decToRat ds [], r)

/-- Python `float` on a string drawn from the character class `[\d.]+`
(the WINNER time capture): defined exactly when there is at most one dot and
at least one digit; otherwise Python raises `ValueError`. -/
def pyFloatDD (cs : List Char) : Option ℚ :=
  if cs.count '.' ≤ 1 && cs.any Char.isDigit then
    some (decToRat (cs.takeWhile (fun c => c != '.'))
      ((cs.dropWhile (fun c => c != '.')).drop 1))
  else none

/-- One per-contestant record produced by `parse_results_file` (a
`model_result` dict): numeric fields are present exactly for the `DONE`
branch. -/
structure ModelResult where
  name : String
  model : String
  status : String
  time : Option ℚ
  tokens : Option Nat
  toks : Option ℚ
deriving DecidableEq

/-- The `DONE <secs>s | <tokens> tokens | <toks> tok/s` completion clause of
the status-line pattern. -/
def mDone (nameCs modelCs : List Char) (cs : List Char) : Option (ModelResult × List Char) :=
  match dropPrefixCS "DONE ".toList cs with
  | none => none
  | some r1 =>
  match pNumber r1 with
  | none => none
  | some (t, r2) =>
  match dropPrefixCS "s | ".toList r2 with
  | none => none
  | some r3 =>
  match takeWhile1 Char.isDigit r3 with
  | none => none
  | some (tokDs, r4) =>
  match dropPrefixCS " tokens | ".toList r4 with
  | none => none
  | some r5 =>
  match pNumber r5 with
  | none => none
  | some (tks, r6) =>
  match dropPrefixCS " tok/s".toList r6 with
  | none => none
  | some r7 =>
    some ({ name := nameCs.asString, model := modelCs.asString, status := "done",
            time := some t, tokens := some (digitsToNat tokDs), toks := some tks }, r7)

/-- The `(FAILED|ERROR)[^\n]*` failure clause of the status-line pattern. -/
def mFail (nameCs modelCs : List Char) (cs : List Char) : Option (ModelResult × List Char) :=
  match (match dropPrefixCS "FAILED".toList cs with
         | some r => some r
         | none => dropPrefixCS "ERROR".toList cs) with
  | none => none
  | some r1 =>
    some ({ name := nameCs.asString, model := modelCs.asString, status := "failed",
            time := none, tokens := none, toks := none },
          r1.dropWhile (fun c => c != '\n'))

/-- Matcher for the contestant status-line pattern
`>>> \[(\d+)/(\d+)\] (\S+) \(([^)]+)\)\s+(?:DONE ...|(FAILED|ERROR)[^\n]*)`
of `parse_results_file`. -/
def mStatus (cs : List Char) : Option (ModelResult × List Char) :=
  match dropPrefixCS ">>> [".toList cs with
  | none => none
  | some r1 =>
  match takeWhile1 Char.isDigit r1 with
  | none => none
  | some (_, r2) =>
  match dropPrefixCS "/".toList r2 with
  | none => none
  | some r3 =>
  match takeWhile1 Char.isDigit r3 with
  | none => none
  | some (_, r4) =>
  match dropPrefixCS "] ".toList r4 with
  | none => none
  | some r5 =>
  match takeWhile1 (fun c => !pyWs c) r5 with
  | none => none
  | some (nameCs, r6) =>
  match dropPrefixCS " (".toList r6 with
  | none => none
  | some r7 =>
  match takeWhile1 (fun c => c != ')') r7 with
  | none => none
  | some (modelCs, r8) =>
  match dropPrefixCS ")".toList r8 with
  | none => none
  | some r9 =>
  match takeWhile1 pyWs r9 with
  | none => none
  | some (_, r10) =>
  match mDone nameCs modelCs r10 with
  | some res => some res
  | none => mFail nameCs modelCs r10

/-- Matcher for `WINNER: (\S+) wins with ([\d.]+)s`; the time capture is kept
raw because converting it to a float can fail. -/
def mWinner (cs : List Char) : Option ((String × List Char) × List Char) :=
  match dropPrefixCS "WINNER: ".toList cs with
  | none => none
  | some r1 =>
  match takeWhile1 (fun c => !pyWs c) r1 with
  | none => none
  | some (nameCs, r2) =>
  match dropPrefixCS " wins with ".toList r2 with
  | none => none
  | some r3 =>
  match takeWhile1 (fun c => c.isDigit || c == '.') r3 with
  | none => none
  | some (ds, r4) =>
  match dropPrefixCS "s".toList r4 with
  | none => none
  | some r5 => some ((nameCs.asString, ds), r5)

/-- `re.search` style scan: first match over all start positions. -/
def searchFirst {α : Type} (m : List Char → Option α) : Nat → List Char → Option α
  | 0, _ => none
  | _ + 1, [] => none
  | n + 1, c :: cs =>
    match m (c :: cs) with
    | some v => some v
    | none => searchFirst m n cs

/-- The lookahead `(?=\n### |\n$|\Z)` terminating a response body (no
MULTILINE flag, so `$` is end of input or just before a final newline). -/
def respLookahead (cs : List Char) : Bool :=
  List.isPrefixOf "\n### ".toList cs || cs == [] || cs == ['\n'] || cs == ['\n', '\n']

/-- The lazy body `(.*?)` with DOTALL: shortest prefix up to the first
position where the lookahead holds (the lookahead consumes nothing). -/
def takeUntilLA : Nat → List Char → (List Char × List Char)
  | 0, cs => ([], cs)
  | n + 1, cs =>
    if respLookahead cs then ([], cs)
    else match cs with
      | [] => ([], [])
      | c :: r =>
        let p := takeUntilLA n r
        (c :: p.1, p.2)

/-- Python `str.strip()`. -/
def pyStrip (cs : List Char) : List Char :=
  ((cs.dropWhile pyWs).reverse.dropWhile pyWs).reverse

/-- Matcher for the response-section pattern
`### (\S+) \(([^)]+)\)\n-+\n(.*?)(?=\n### |\n$|\Z)` (DOTALL); yields the
model key and the stripped body, as stored into `result["responses"]`. -/
def mResp (cs : List Char) : Option ((String × String) × List Char) :=
  match dropPrefixCS "### ".toList cs with
  | none => none
  | some r1 =>
  match takeWhile1 (fun c => !pyWs c) r1 with
  | none => none
  | some (_, r2) =>
  match dropPrefixCS " (".toList r2 with
  | none => none
  | some r3 =>
  match takeWhile1 (fun c => c != ')') r3 with
  | none => none
  | some (modelCs, r4) =>
  match dropPrefixCS ")".toList r4 with
  | none => none
  | some r5 =>
  match dropPrefixCS "\n".toList r5 with
  | none => none
  | some r6 =>
  match takeWhile1 (fun c => c == '-') r6 with
  | none => none
  | some (_, r7) =>
  match dropPrefixCS "\n".toList r7 with
  | none => none
  | some r8 =>
    let p := takeUntilLA (r8.length + 1) r8
    some ((modelCs.asString, (pyStrip p.1).asString), p.2)

/-- The structured record returned by `parse_results_file`. -/
structure IssueResult where
  models : List ModelResult
  winner : Option (String × ℚ)
  responses : List (String × String)
deriving DecidableEq

deriving instance DecidableEq for Except

/-- Python dict insertion: overwrite in place if the key exists, else append
(insertion order preserved). -/
def dictInsert (d : List (String × String)) (k v : String) : List (String × String) :=
  if d.any (fun p => p.1 == k) then d.map (fun p => if p.1 == k then (k, v) else p)
  else d ++ [(k, v)]

/-- All contestant status-line matches of a transcript. -/
def statusMatches (content : String) : List ModelResult :=
  reScan (fun _ => mStatus) (content.toList.length + 1) none content.toList

/-- All response-section matches of a transcript, in order. -/
def responseMatches (content : String) : List (String × String) :=
  reScan (fun _ => mResp) (content.toList.length + 1) none content.toList

/-- The raw winner capture of a transcript, if a WINNER line matches. -/
def winnerRaw (content : String) : Option (String × List Char) :=
  (searchFirst mWinner (content.toList.length + 1) content.toList).map (fun p => p.1)

/-- `parse_results_file` from `triage_analyze.py` on the file's contents.
The only statement in it that can raise is `float(...)` on the WINNER time
capture (all other numeric captures are always-valid literals); modelled with
`Except`. -/
def parse_results_file (content : String) : Except String IssueResult :=
  let responses := (responseMatches content).foldl (fun d p => dictInsert d p.1 p.2) []
  match winnerRaw content with
  | some (nm, ds) =>
    match pyFloatDD ds with
    | some q =>
      .ok { models := statusMatches content, winner := some (nm, q), responses := responses }
    | none => .error "ValueError: could not convert string to float"
  | none =>
    .ok { models := statusMatches content, winner := none, responses := responses }

/-- Matcher for `\*\*Scope[^:]*:\*\*\s*(XS|S|M|L|XL)` (IGNORECASE). -/
def mScopeBold (cs : List Char) : Option (String × List Char) :=
  match dropPrefixCI "**scope".toList cs with
  | none => none
  | some r1 =>
    match dropPrefixCI ":**".toList (r1.dropWhile (fun c => c != ':')) with
    | none => none
    | some r2 => pSize (r2.dropWhile pyWs)

/-- Matcher for `Scope:\s*(XS|S|M|L|XL)` (IGNORECASE). -/
def mScopePlain (cs : List Char) : Option (String × List Char) :=
  match dropPrefixCI "scope:".toList cs with
  | some r => pSize (r.dropWhile pyWs)
  | none => none

/-- `re.search` over a string with a capture-producing matcher. -/
def reSearch (m : List Char → Option (String × List Char)) (s : String) : Option String :=
  (searchFirst m (s.toList.length + 1) s.toList).map (fun p => p.1)

/-- `extract_scope_from_response` from `triage_analyze.py`: the four pattern
variants are tried in order and only the first match is used. -/
def extract_scope_from_response (s : String) : Option String :=
  match reSearch mSizeBold s with
  | some v => some v
  | none =>
  match reSearch mScopeBold s with
  | some v => some v
  | none =>
  match reSearch mSizePlain s with
  | some v => some v
  | none => reSearch mScopePlain s

/-- Increment of a `defaultdict(int)` entry, preserving insertion order. -/
def bump : List (String × Nat) → String → List (String × Nat)
  | [], s => [(s, 1)]
  | (k, c) :: rest, s =>
    if k = s then (k, c + 1) :: rest else (k, c) :: bump rest s

/-- Total of all tallied votes. -/
def sumCounts (l : List (String × Nat)) : Nat :=
  l.foldr (fun p a => p.2 + a) 0

/-- The `scope_votes` tally built by `get_scope_consensus`: one vote per
response whose scope extraction succeeds. -/
def scope_votes (responses : List (String × String)) : List (String × Nat) :=
  responses.foldl (fun acc p =>
    match extract_scope_from_response p.2 with
    | some s => bump acc s
    | none => acc) []

/-- `get_scope_consensus` from `triage_analyze.py`: `(None, {})` with no
votes, else the top vote if `top_count >= total_votes / 2`, keeping the
tally. -/
def get_scope_consensus (r : IssueResult) : Option String × List (String × Nat) :=
  let votes := scope_votes r.responses
  match pickTop votes with
  | none => (none, [])
  | some (topS, topC) =>
    if sumCounts votes ≤ 2 * topC then (some topS, votes) else (none, votes)

/-! Reporter (`triage_report.py`). -/

/-- `existsPos p` is true when the predicate holds at some start position:
the boolean content of `re.search` for the quality-score regexes. -/
def existsPos (p : List Char → Bool) : Nat → List Char → Bool
  | 0, _ => false
  | _ + 1, [] => false
  | n + 1, c :: cs => p (c :: cs) || existsPos p n cs

/-- A match of a fenced code block opener at this position: the pattern
is three backquotes, then `\w*`, then a newline. -/
def codeAt (cs : List Char) : Bool :=
  match dropPrefixCS "```".toList cs with
  | none => false
  | some r => (r.dropWhile isWordChar).head? == some '\n'

/-- A match of `(implementation plan|step \d|phase \d|\d\.\s+\w)`
(IGNORECASE) at this position. -/
def planAt (cs : List Char) : Bool :=
  (dropPrefixCI "implementation plan".toList cs).isSome ||
  (match dropPrefixCI "step ".toList cs with
   | some r => (match r.head? with | some c => c.isDigit | none => false)
   | none => false) ||
  (match dropPrefixCI "phase ".toList cs with
   | some r => (match r.head? with | some c => c.isDigit | none => false)
   | none => false) ||
  (match cs with
   | c :: '.' :: rest =>
     c.isDigit && !(rest.takeWhile pyWs).isEmpty &&
       (match (rest.dropWhile pyWs).head? with
        | some w => isWordChar w
        | none => false)
   | _ => false)

/-- A match of a mermaid diagram fence at this position: three backquotes
followed by `mermaid` (IGNORECASE). -/
def diagramAt (cs : List Char) : Bool :=
  (dropPrefixCI "```mermaid".toList cs).isSome

/-- A match of `(open question|unclear|need.*(clarif|more info))`
(IGNORECASE) at this position; `.` does not cross a newline. -/
def questionsAt (cs : List Char) : Bool :=
  (dropPrefixCI "open question".toList cs).isSome ||
  (dropPrefixCI "unclear".toList cs).isSome ||
  (match dropPrefixCI "need".toList cs with
   | some r =>
     let seg := r.takeWhile (fun c => c != '\n')
     containsCI "clarif" seg || containsCI "more info" seg
   | none => false)

/-- `re.search` as a boolean over a string. -/
def reHas (p : List Char → Bool) (s : String) : Bool :=
  existsPos p (s.toList.length + 1) s.toList

/-- Python `len(response.split())`: number of maximal non-whitespace runs. -/
def wcAux : Bool → List Char → Nat
  | _, [] => 0
  | inWord, c :: cs =>
    if pyWs c then wcAux false cs
    else (if inWord then 0 else 1) + wcAux true cs

/-- Word count of a response (its `tokens` field). -/
def wordCount (cs : List Char) : Nat :=
  wcAux false cs

/-- The score record computed by `TriageReporter._score_response`. -/
structure RespScore where
  has_code : Bool
  has_plan : Bool
  has_diagram : Bool
  has_questions : Bool
  has_scope : Bool
  tokens : Nat
  total_score : Nat
deriving DecidableEq

/-- Bool-to-point conversion used when summing the indicator points. -/
def b2n (b : Bool) : Nat :=
  if b then 1 else 0

/-- `TriageReporter._score_response` from `triage_report.py`. -/
def score_response (s : String) : RespScore :=
  let hc := reHas codeAt s
  let hp := reHas planAt s
  let hd := reHas diagramAt s
  let hq := reHas questionsAt s
  let hs := (extract_scope_from_response s).isSome
  { has_code := hc, has_plan := hp, has_diagram := hd, has_questions := hq,
    has_scope := hs, tokens := wordCount s.toList,
    total_score := b2n hc + b2n hp + b2n hd + b2n hq + b2n hs }

/-- The condition under which `TriageReporter.quality_report` appends a
response to `weak_responses`: it is not listed as best (`score >= 4`), its
score is at most 1, and it has more than 50 tokens. -/
def weak_listed (s : String) : Bool :=
  let sc := score_response s
  if 4 ≤ sc.total_score then false
  else if sc.total_score ≤ 1 && 50 < sc.tokens then true
  else false

/-- The cluster assignment of `TriageReporter.consensus_report` for one
issue, given its contestant success counts and its consensus level
(`scope_votes / total_votes`, exact): failures are checked first, then the
level thresholds in descending order. -/
def consensus_bucket (models_succeeded models_run : Nat) (level : ℚ) : String :=
  if (models_succeeded : ℚ) < (models_run : ℚ) * 0.75 then "needs_review"
  else if 0.75 ≤ level then "high_consensus"
  else if 0.5 ≤ level then "medium_consensus"
  else if 0.25 ≤ level then "low_consensus"
  else "no_consensus"

/-! Log and retention manager (`triage_logger.py`). -/

/-- Gregorian leap-year test. -/
def isLeapY (y : Nat) : Bool :=
  (y % 4 == 0 && y % 100 != 0) || y % 400 == 0

/-- Days in a month, as validated by `datetime`. -/
def daysInMonth (y m : Nat) : Nat :=
  if m == 2 then (if isLeapY y then 29 else 28)
  else if m == 4 || m == 6 || m == 9 || m == 11 then 30
  else 31

/-- The `%d` field regex of CPython `_strptime`,
`3[0-1]|[1-2]\d|0[1-9]|[1-9]| [1-9]` (the last alternative a space-padded
day), alternatives tried in order and nothing following it in the pattern:
returns the day value and the unconsumed rest. -/
def dayMatch (cs : List Char) : Option (Nat × List Char) :=
  match cs with
  | c1 :: c2 :: r =>
    if c1 == '3' && (c2 == '0' || c2 == '1') then some (30 + (c2.toNat - 48), r)
    else if (c1 == '1' || c1 == '2') && c2.isDigit then
      some (10 * (c1.toNat - 48) + (c2.toNat - 48), r)
    else if c1 == '0' && (c2.isDigit && c2 != '0') then some (c2.toNat - 48, r)
    else if c1.isDigit && c1 != '0' then some (c1.toNat - 48, c2 :: r)
    else if c1 == ' ' && (c2.isDigit && c2 != '0') then some (c2.toNat - 48, r)
    else none
  | [c1] => if c1.isDigit && c1 != '0' then some (c1.toNat - 48, []) else none
  | [] => none

/-- The one-digit-month alternative `[1-9]` of the `%m` field regex,
followed by the `%d` field. -/
def mdFallback (cs : List Char) : Option (Nat × Nat × List Char) :=
  match cs with
  | c1 :: r =>
    if c1.isDigit && c1 != '0' then
      match dayMatch r with
      | some (d, r2) => some (c1.toNat - 48, d, r2)
      | none => none
    else none
  | [] => none

/-- The `%m%d` tail of CPython's compiled `"%Y%m%d"` pattern: the `%m`
regex `1[0-2]|0[1-9]|[1-9]` with alternatives tried in order, the engine
backtracking into the one-digit-month alternative when no day can be
matched behind a two-digit month. -/
def monthDayMatch (cs : List Char) : Option (Nat × Nat × List Char) :=
  match cs with
  | '1' :: c2 :: r =>
    if c2 == '0' || c2 == '1' || c2 == '2' then
      match dayMatch r with
      | some (d, r2) => some (10 + (c2.toNat - 48), d, r2)
      | none => mdFallback ('1' :: c2 :: r)
    else mdFallback ('1' :: c2 :: r)
  | '0' :: c2 :: r =>
    if c2.isDigit && c2 != '0' then
      match dayMatch r with
      | some (d, r2) => some (c2.toNat - 48, d, r2)
      | none => none
    else none
  | cs2 => mdFallback cs2

/-- `datetime.strptime(s, "%Y%m%d")` on a name prefix of at most 8
characters: the compiled pattern
`(?P<Y>\d\d\d\d)(?P<m>1[0-2]|0[1-9]|[1-9])(?P<d>3[01]|[12]\d|0[1-9]|[1-9])`
is matched from the start with leftmost-alternative preference and no end
anchor; a match leaving unconverted data raises, and the matched fields are
then validated by the `datetime` constructor (year at least 1, day within
the month). Returns the parsed date, `none` wherever Python raises
`ValueError`. -/
def parseYmd8 (cs : List Char) : Option (Nat × Nat × Nat) :=
  match cs with
  | y1 :: y2 :: y3 :: y4 :: rest =>
    if y1.isDigit && y2.isDigit && y3.isDigit && y4.isDigit then
      let y := digitsToNat [y1, y2, y3, y4]
      match monthDayMatch rest with
      | some (m, d, r2) =>
        if r2.isEmpty then
          if 1 ≤ y ∧ d ≤ daysInMonth y m then some (y, m, d) else none
        else none
      | none => none
    else none
  | _ => none

/-- Leap days up to year `y` inclusive. -/
def leapsBefore (y : Nat) : Nat :=
  y / 4 - y / 100 + y / 400

/-- Days in the months before month `m` of year `y`. -/
def cumDaysBefore (y m : Nat) : Nat :=
  (List.range (m - 1)).foldl (fun a i => a + daysInMonth y (i + 1)) 0

/-- Proleptic-Gregorian day number of a date (day 1 = 0001-01-01), so that
`(now - date).days` is a difference of day numbers. -/
def dayNumber (y m d : Nat) : Nat :=
  365 * (y - 1) + leapsBefore (y - 1) + cumDaysBefore y m + d

/-- Day number encoded by the first 8 characters of a raw-artifact directory
name (`datetime.strptime(item.name[:8], "%Y%m%d")`), if they parse. -/
def nameDate (name : String) : Option Nat :=
  match parseYmd8 (name.toList.take 8) with
  | some (y, m, d) => some (dayNumber y m d)
  | none => none

/-- Day number encoded by a log file name
(`datetime.strptime(item.name.split("-")[1][:8], "%Y%m%d")`), if it parses;
a missing second dash-separated part is Python's caught `IndexError`. -/
def logNameDate (name : String) : Option Nat :=
  match (name.splitOn "-").get? 1 with
  | some part =>
    match parseYmd8 (part.toList.take 8) with
    | some (y, m, d) => some (dayNumber y m d)
    | none => none
  | none => none

/-- Suffix test over the characters of a name. -/
def endsWithL (sfx : String) (name : String) : Bool :=
  sfx.toList.isSuffixOf name.toList

/-- The raw-artifact deletion condition of `cleanup_old_data`: the directory
name parses as a date and its age exceeds `RAW_RETENTION_DAYS = 7`. -/
def rawShouldDelete (now : Int) (name : String) : Bool :=
  match nameDate name with
  | some dd => decide (7 < now - (dd : Int))
  | none => false

/-- The log compression condition of `cleanup_old_data`: the name matches
the glob `*.jsonl`, is not already a `.gz` file, its encoded date parses,
and its age exceeds `COMPRESS_AFTER_DAYS = 1`. -/
def logShouldCompress (now : Int) (name : String) : Bool :=
  endsWithL ".jsonl" name && !(endsWithL ".gz" name) &&
  (match logNameDate name with
   | some dd => decide (1 < now - (dd : Int))
   | none => false)

/-- The directory tree touched by the retention sweep, abstracted to names:
the raw per-issue artifact directories under `RAW_DIR` and the file names
under `JSONL_DIR`. -/
structure FsState where
  rawDirs : List String
  logFiles : List String
deriving DecidableEq

/-- `cleanup_old_data` from `triage_logger.py` at reference day `now`:
delete old raw directories; compress (rename to `<name>.gz` after gzipping)
old uncompressed logs and remove the originals. -/
def cleanup_old_data (now : Int) (st : FsState) : FsState :=
  { rawDirs := st.rawDirs.filter (fun n => !rawShouldDelete now n)
    logFiles := st.logFiles.map (fun f => if logShouldCompress now f then f ++ ".gz" else f) }

/-! Semantic vocabulary used by the claims. -/

/-- Maximum of a list of naturals. -/
def listMaxN (l : List Nat) : Nat :=
  l.foldr max 0

/-- The highest vote count in a vote list (the claims' "top"). -/
def topCnt (sizes : List String) : Nat :=
  listMaxN (sizes.map (fun s => sizes.count s))

/-- A synthetic transcript with three contestant status lines: two carrying
the DONE completion clause, one carrying a FAILED marker, and no WINNER
line. -/
def transcript3 : String :=
  ">>> [1/3] alpha (model-a)\n    DONE 12.5s | 300 tokens | 24.0 tok/s\n>>> [2/3] beta (model-b)\n    DONE 8s | 100 tokens | 12.5 tok/s\n>>> [3/3] gamma (model-c)\n    FAILED timeout\n"

/-- Absence of the one condition that makes `parse_results_file` raise: no
WINNER line whose matched time capture fails Python float conversion. -/
def winnerOk (content : String) : Bool :=
  match winnerRaw content with
  | some (_, ds) => (pyFloatDD ds).isSome
  | none => true

end Clood

namespace Clood

/-! Helper lemmas. -/

theorem b2n_le_one (b : Bool) : b2n b ≤ 1 := by
  cases b <;> simp [b2n]

theorem pickTop_eq_none {l : List (String × Nat)} : pickTop l = none ↔ l = [] := by
  cases l with
  | nil => simp [pickTop]
  | cons p rest =>
    simp only [pickTop]
    cases pickTop rest with
    | none => simp
    | some q =>
      dsimp only
      split <;> simp

theorem pickTop_spec : ∀ {l : List (String × Nat)} {q : String × Nat},
    pickTop l = some q → q ∈ l ∧ ∀ p ∈ l, p.2 ≤ q.2 := by
  intro l
  induction l with
  | nil => intro q h; simp [pickTop] at h
  | cons p rest ih =>
    intro q h
    simp only [pickTop] at h
    cases hr : pickTop rest with
    | none =>
      rw [hr] at h
      dsimp only at h
      have hrest : rest = [] := pickTop_eq_none.mp hr
      cases h
      subst hrest
      exact ⟨List.mem_cons_self _ _, by intro x hx; simp at hx; subst hx; exact le_refl _⟩
    | some q' =>
      rw [hr] at h
      dsimp only at h
      obtain ⟨hmem, hmax⟩ := ih hr
      by_cases hlt : p.2 < q'.2
      · rw [if_pos hlt] at h
        cases h
        exact ⟨List.mem_cons_of_mem _ hmem, by
          intro x hx
          rcases List.mem_cons.mp hx with hx | hx
          · subst hx; exact le_of_lt hlt
          · exact hmax x hx⟩
      · rw [if_neg hlt] at h
        cases h
        exact ⟨List.mem_cons_self _ _, by
          intro x hx
          rcases List.mem_cons.mp hx with hx | hx
          · subst hx; exact le_refl _
          · exact le_trans (hmax x hx) (le_of_not_lt hlt)⟩

theorem foldl_firstOccur_mem (l : List String) :
    ∀ (acc : List String) (y : String),
      y ∈ l.foldl (fun acc x => if x ∈ acc then acc else acc ++ [x]) acc ↔
        y ∈ acc ∨ y ∈ l := by
  induction l with
  | nil => intro acc y; simp
  | cons x xs ih =>
    intro acc y
    simp only [List.foldl_cons]
    rw [ih]
    by_cases hx : x ∈ acc
    · rw [if_pos hx]
      simp only [List.mem_cons]
      constructor
      · rintro (h | h)
        · exact Or.inl h
        · exact Or.inr (Or.inr h)
      · rintro (h | h | h)
        · exact Or.inl h
        · subst h; exact Or.inl hx
        · exact Or.inr h
    · rw [if_neg hx]
      simp only [List.mem_append, List.mem_cons, List.not_mem_nil, or_false]
      constructor
      · rintro ((h | h) | h)
        · exact Or.inl h
        · exact Or.inr (Or.inl h)
        · exact Or.inr (Or.inr h)
      · rintro (h | h | h)
        · exact Or.inl (Or.inl h)
        · exact Or.inl (Or.inr h)
        · exact Or.inr h

theorem firstOccur_mem {y : String} {l : List String} :
    y ∈ firstOccur l ↔ y ∈ l := by
  unfold firstOccur
  rw [foldl_firstOccur_mem]
  simp

theorem firstOccur_ne_nil {l : List String} (h : l ≠ []) : firstOccur l ≠ [] := by
  obtain ⟨x, hx⟩ := List.exists_mem_of_ne_nil l h
  exact List.ne_nil_of_mem (firstOccur_mem.mpr hx)

theorem le_listMaxN {a : Nat} : ∀ {l : List Nat}, a ∈ l → a ≤ listMaxN l := by
  intro l
  induction l with
  | nil => intro h; simp at h
  | cons x xs ih =>
    intro h
    rcases List.mem_cons.mp h with h | h
    · subst h; exact le_max_left _ _
    · exact le_trans (ih h) (le_max_right _ _)

theorem listMaxN_le {b : Nat} : ∀ {l : List Nat}, (∀ a ∈ l, a ≤ b) → listMaxN l ≤ b := by
  intro l
  induction l with
  | nil => intro _; simp [listMaxN]
  | cons x xs ih =>
    intro h
    have : listMaxN (x :: xs) = max x (listMaxN xs) := rfl
    rw [this]
    exact max_le (h x (List.mem_cons_self _ _)) (ih fun a ha => h a (List.mem_cons_of_mem _ ha))

theorem counterList_mem {l : List String} {p : String × Nat} (h : p ∈ counterList l) :
    p.1 ∈ l ∧ p.2 = l.count p.1 := by
  unfold counterList at h
  obtain ⟨a, ha, heq⟩ := List.mem_map.mp h
  cases heq
  exact ⟨firstOccur_mem.mp ha, rfl⟩

theorem pickTop_counter_topCnt {sizes : List String} {q : String × Nat}
    (h : pickTop (counterList sizes) = some q) :
    q.2 = topCnt sizes ∧ q.1 ∈ sizes ∧ sizes.count q.1 = q.2 := by
  obtain ⟨hmem, hmax⟩ := pickTop_spec h
  obtain ⟨h1, h2⟩ := counterList_mem hmem
  refine ⟨le_antisymm ?_ ?_, h1, h2.symm⟩
  · rw [h2]
    exact le_listMaxN (List.mem_map_of_mem _ h1)
  · refine listMaxN_le ?_
    intro a ha
    obtain ⟨s, hs, heq⟩ := List.mem_map.mp ha
    subst heq
    have : (s, sizes.count s) ∈ counterList sizes :=
      List.mem_map_of_mem _ (firstOccur_mem.mpr hs)
    exact hmax _ this

theorem pSize_mem {cs : List Char} {v : String} {r : List Char}
    (h : pSize cs = some (v, r)) : v ∈ (["XS", "S", "M", "L", "XL"] : List String) := by
  unfold pSize at h
  cases h1 : dropPrefixCI "xs".toList cs with
  | some r1 => rw [h1] at h; cases h; decide
  | none =>
  rw [h1] at h
  dsimp only at h
  cases h2 : dropPrefixCI "s".toList cs with
  | some r1 => rw [h2] at h; cases h; decide
  | none =>
  rw [h2] at h
  dsimp only at h
  cases h3 : dropPrefixCI "m".toList cs with
  | some r1 => rw [h3] at h; cases h; decide
  | none =>
  rw [h3] at h
  dsimp only at h
  cases h4 : dropPrefixCI "l".toList cs with
  | some r1 => rw [h4] at h; cases h; decide
  | none =>
  rw [h4] at h
  dsimp only at h
  cases h5 : dropPrefixCI "xl".toList cs with
  | some r1 => rw [h5] at h; cases h; decide
  | none => rw [h5] at h; cases h

theorem mSizeBold_mem {cs : List Char} {v : String} {r : List Char}
    (h : mSizeBold cs = some (v, r)) : v ∈ (["XS", "S", "M", "L", "XL"] : List String) := by
  unfold mSizeBold at h
  cases h1 : dropPrefixCI "**size:**".toList cs with
  | some r1 => rw [h1] at h; exact pSize_mem h
  | none => rw [h1] at h; cases h

theorem mSizePlain_mem {cs : List Char} {v : String} {r : List Char}
    (h : mSizePlain cs = some (v, r)) : v ∈ (["XS", "S", "M", "L", "XL"] : List String) := by
  unfold mSizePlain at h
  cases h1 : dropPrefixCI "size:".toList cs with
  | some r1 => rw [h1] at h; exact pSize_mem h
  | none => rw [h1] at h; cases h

theorem mSizeWordB_mem {prev : Option Char} {cs : List Char} {v : String} {r : List Char}
    (h : mSizeWordB prev cs = some (v, r)) : v ∈ (["XS", "S", "M", "L", "XL"] : List String) := by
  unfold mSizeWordB at h
  dsimp only at h
  split at h
  · cases h1 : dropPrefixCI "size".toList cs with
    | some r1 =>
      rw [h1] at h
      dsimp only at h
      split at h
      · exact pSize_mem h
      · cases h
    | none => rw [h1] at h; cases h
  · cases h

theorem mScopeBold_mem {cs : List Char} {v : String} {r : List Char}
    (h : mScopeBold cs = some (v, r)) : v ∈ (["XS", "S", "M", "L", "XL"] : List String) := by
  unfold mScopeBold at h
  cases h1 : dropPrefixCI "**scope".toList cs with
  | none => rw [h1] at h; cases h
  | some r1 =>
    rw [h1] at h
    dsimp only at h
    cases h2 : dropPrefixCI ":**".toList (r1.dropWhile (fun c => c != ':')) with
    | none => rw [h2] at h; cases h
    | some r2 => rw [h2] at h; exact pSize_mem h

theorem mScopePlain_mem {cs : List Char} {v : String} {r : List Char}
    (h : mScopePlain cs = some (v, r)) : v ∈ (["XS", "S", "M", "L", "XL"] : List String) := by
  unfold mScopePlain at h
  cases h1 : dropPrefixCI "scope:".toList cs with
  | some r1 => rw [h1] at h; exact pSize_mem h
  | none => rw [h1] at h; cases h

theorem reScan_forall {α : Type} (m : Option Char → List Char → Option (α × List Char))
    (P : α → Prop)
    (hm : ∀ prev cs v rest, m prev cs = some (v, rest) → P v) :
    ∀ (fuel : Nat) (prev : Option Char) (cs : List Char) (v : α),
      v ∈ reScan m fuel prev cs → P v := by
  intro fuel
  induction fuel with
  | zero => intro prev cs v h; simp [reScan] at h
  | succ n ih =>
    intro prev cs v h
    cases cs with
    | nil => simp [reScan] at h
    | cons c cs2 =>
      simp only [reScan] at h
      cases hmm : m prev (c :: cs2) with
      | some p =>
        obtain ⟨v0, rest⟩ := p
        rw [hmm] at h
        dsimp only at h
        rcases List.mem_cons.mp h with h | h
        · subst h; exact hm _ _ _ _ hmm
        · exact ih _ _ _ h
      | none =>
        rw [hmm] at h
        exact ih _ _ _ h

theorem searchFirst_forall {α : Type} (m : List Char → Option α) (P : α → Prop)
    (hm : ∀ cs v, m cs = some v → P v) :
    ∀ (fuel : Nat) (cs : List Char) (v : α), searchFirst m fuel cs = some v → P v := by
  intro fuel
  induction fuel with
  | zero => intro cs v h; simp [searchFirst] at h
  | succ n ih =>
    intro cs v h
    cases cs with
    | nil => simp [searchFirst] at h
    | cons c cs2 =>
      simp only [searchFirst] at h
      cases hmm : m (c :: cs2) with
      | some w =>
        rw [hmm] at h
        cases h
        exact hm _ _ hmm
      | none =>
        rw [hmm] at h
        exact ih _ _ h

theorem extract_sizes_subset (s : String) :
    ∀ v ∈ extract_size_estimates s, v ∈ (["XS", "S", "M", "L", "XL"] : List String) := by
  intro v hv
  unfold extract_size_estimates reFindAll at hv
  rcases List.mem_append.mp hv with hv | hv
  rcases List.mem_append.mp hv with hv | hv
  · exact reScan_forall _ _ (fun _ _ _ _ h => mSizeBold_mem h) _ _ _ _ hv
  · exact reScan_forall _ _ (fun _ _ _ _ h => mSizePlain_mem h) _ _ _ _ hv
  · exact reScan_forall _ _ (fun prev _ _ _ h => mSizeWordB_mem h) _ _ _ _ hv

theorem reSearch_mem {m : List Char → Option (String × List Char)} {s : String} {v : String}
    (hm : ∀ cs p, m cs = some p → p.1 ∈ (["XS", "S", "M", "L", "XL"] : List String))
    (h : reSearch m s = some v) : v ∈ (["XS", "S", "M", "L", "XL"] : List String) := by
  unfold reSearch at h
  rcases Option.map_eq_some'.mp h with ⟨p, hp, hv⟩
  subst hv
  exact searchFirst_forall m _ hm _ _ _ hp

theorem extract_scope_mem {s : String} {v : String}
    (h : extract_scope_from_response s = some v) :
    v ∈ (["XS", "S", "M", "L", "XL"] : List String) := by
  have hm1 : ∀ cs (p : String × List Char), mSizeBold cs = some p →
      p.1 ∈ (["XS", "S", "M", "L", "XL"] : List String) := by
    intro cs p hp
    obtain ⟨a, b⟩ := p
    exact mSizeBold_mem hp
  have hm2 : ∀ cs (p : String × List Char), mScopeBold cs = some p →
      p.1 ∈ (["XS", "S", "M", "L", "XL"] : List String) := by
    intro cs p hp
    obtain ⟨a, b⟩ := p
    exact mScopeBold_mem hp
  have hm3 : ∀ cs (p : String × List Char), mSizePlain cs = some p →
      p.1 ∈ (["XS", "S", "M", "L", "XL"] : List String) := by
    intro cs p hp
    obtain ⟨a, b⟩ := p
    exact mSizePlain_mem hp
  have hm4 : ∀ cs (p : String × List Char), mScopePlain cs = some p →
      p.1 ∈ (["XS", "S", "M", "L", "XL"] : List String) := by
    intro cs p hp
    obtain ⟨a, b⟩ := p
    exact mScopePlain_mem hp
  unfold extract_scope_from_response at h
  cases h1 : reSearch mSizeBold s with
  | some w =>
    rw [h1] at h
    cases h
    exact reSearch_mem hm1 h1
  | none =>
    rw [h1] at h
    dsimp only at h
    cases h2 : reSearch mScopeBold s with
    | some w =>
      rw [h2] at h
      cases h
      exact reSearch_mem hm2 h2
    | none =>
      rw [h2] at h
      dsimp only at h
      cases h3 : reSearch mSizePlain s with
      | some w =>
        rw [h3] at h
        cases h
        exact reSearch_mem hm3 h3
      | none =>
        rw [h3] at h
        dsimp only at h
        exact reSearch_mem hm4 h

theorem sumCounts_cons (p : String × Nat) (l : List (String × Nat)) :
    sumCounts (p :: l) = p.2 + sumCounts l := rfl

theorem sumCounts_bump (l : List (String × Nat)) (s : String) :
    sumCounts (bump l s) = sumCounts l + 1 := by
  induction l with
  | nil => rfl
  | cons p rest ih =>
    obtain ⟨k, c⟩ := p
    unfold bump
    by_cases hk : k = s
    · rw [if_pos hk]
      rw [sumCounts_cons, sumCounts_cons]
      omega
    · rw [if_neg hk]
      rw [sumCounts_cons, sumCounts_cons, ih]
      omega

theorem scope_votes_foldl_le (rs : List (String × String)) :
    ∀ acc : List (String × Nat),
      sumCounts (rs.foldl (fun acc p =>
        match extract_scope_from_response p.2 with
        | some s => bump acc s
        | none => acc) acc) ≤ sumCounts acc + rs.length := by
  induction rs with
  | nil => intro acc; simp
  | cons p rest ih =>
    intro acc
    simp only [List.foldl_cons, List.length_cons]
    cases hx : extract_scope_from_response p.2 with
    | some s0 =>
      dsimp only
      have h1 := ih (bump acc s0)
      rw [sumCounts_bump] at h1
      omega
    | none =>
      dsimp only
      have h1 := ih acc
      omega

theorem size_label_mem {l : List String} {v : String}
    (hsub : ∀ x ∈ l, x ∈ (["XS", "S", "M", "L", "XL"] : List String))
    (h : size_label l = some v) :
    v ∈ (["scope:XS", "scope:S", "scope:M", "scope:L", "scope:XL",
          "scope-disputed"] : List String) := by
  unfold size_label at h
  cases hp : pickTop (counterList l) with
  | none => rw [hp] at h; cases h
  | some q =>
    rw [hp] at h
    obtain ⟨topS, topC⟩ := q
    dsimp only at h
    have hmem : topS ∈ l := (pickTop_counter_topCnt hp).2.1
    have h5 := hsub topS hmem
    split at h
    · cases h
      fin_cases h5 <;> decide
    · cases h
      decide

/-- C1: for every label set `L` and host tag `H`, the skip/process decision
`should_process` is a pure function returning skip (`false`) if and only if
(`H ∈ L` and `needs-retriage ∉ L`) or (`triaged ∈ L` and
`needs-retriage ∉ L`); in every other case it returns process (`true`). -/
theorem should_process_skip_iff (L : List String) (H : String) :
    (should_process L H).1 = false ↔
      ((H ∈ L ∧ "needs-retriage" ∉ L) ∨ ("triaged" ∈ L ∧ "needs-retriage" ∉ L)) := by
  unfold should_process
  split_ifs with h1 h2 <;> simp_all

/-- C5: there is a response text in which a single occurrence of a size
token is matched by more than one of the independent scope-extraction
pattern variants of `extract_size_estimates` and therefore counted more than
once: the text `Size: M` holds one size token yet contributes two `M`
votes (pattern variants 2 and 3 both match it). -/
theorem extract_size_double_count :
    extract_size_estimates "Size: M" = ["M", "M"] := by decide

/-- C3: the reporting bucket of `consensus_report` is `high` exactly when
the consensus level is at least 0.75, `medium` exactly on [0.50, 0.75),
`low` exactly on [0.25, 0.50) and `none` below 0.25 (each boundary value
falling in the upper bucket), except that whenever the number of contestants
that completed successfully is below 0.75 of the contestants run the issue
is classified `needs_review` regardless of the level. -/
theorem consensus_bucket_spec (s r : Nat) (level : ℚ) :
    (consensus_bucket s r level = "needs_review" ↔ (s : ℚ) < (r : ℚ) * 0.75)
  ∧ (consensus_bucket s r level = "high_consensus" ↔
      ¬((s : ℚ) < (r : ℚ) * 0.75) ∧ 0.75 ≤ level)
  ∧ (consensus_bucket s r level = "medium_consensus" ↔
      ¬((s : ℚ) < (r : ℚ) * 0.75) ∧ 0.5 ≤ level ∧ level < 0.75)
  ∧ (consensus_bucket s r level = "low_consensus" ↔
      ¬((s : ℚ) < (r : ℚ) * 0.75) ∧ 0.25 ≤ level ∧ level < 0.5)
  ∧ (consensus_bucket s r level = "no_consensus" ↔
      ¬((s : ℚ) < (r : ℚ) * 0.75) ∧ level < 0.25) := by
  unfold consensus_bucket
  split_ifs with h1 h2 h3 h4 <;>
    refine ⟨?_, ?_, ?_, ?_, ?_⟩ <;> simp_all <;> (try intro h5) <;> linarith

/-- C2: for every non-empty list of extracted size votes, the binding-label
decision of `analyze_results` assigns `scope:<size>` exactly when the
highest vote count is strictly greater than half the total vote count
(`total < 2 * top`), the chosen size then achieving that highest count, and
assigns `scope-disputed` otherwise; in particular votes {M:3, S:2} yield
`scope:M` and votes {M:2, S:2, L:1} yield `scope-disputed`. -/
theorem size_label_majority :
    (∀ sizes : List String, sizes ≠ [] →
      (sizes.length < 2 * topCnt sizes →
        ∃ s, s ∈ sizes ∧ sizes.count s = topCnt sizes ∧
          size_label sizes = some ("scope:" ++ s)) ∧
      (¬ sizes.length < 2 * topCnt sizes →
        size_label sizes = some "scope-disputed"))
  ∧ size_label ["M", "M", "M", "S", "S"] = some "scope:M"
  ∧ size_label ["M", "S", "M", "S", "L"] = some "scope-disputed" := by
  refine ⟨?_, by decide, by decide⟩
  intro sizes hne
  cases hp : pickTop (counterList sizes) with
  | none =>
    exfalso
    have hcl : counterList sizes = [] := pickTop_eq_none.mp hp
    have h0 : firstOccur sizes = [] := by
      have hlen := congrArg List.length hcl
      simpa [counterList] using hlen
    exact firstOccur_ne_nil hne h0
  | some q =>
    obtain ⟨htop, hmem, hcnt⟩ := pickTop_counter_topCnt hp
    obtain ⟨topS, topC⟩ := q
    simp only at htop hcnt
    constructor
    · intro hmaj
      refine ⟨topS, hmem, by rw [hcnt, htop], ?_⟩
      unfold size_label
      rw [hp]
      dsimp only
      rw [if_pos (by rw [htop]; exact hmaj)]
    · intro hnm
      unfold size_label
      rw [hp]
      dsimp only
      rw [if_neg (by rw [htop]; exact hnm)]

/-- C10: the analyzer/reporter scope extraction
(`extract_scope_from_response`) returns nothing or exactly one of the five
size tokens (the first pattern match only), so in `get_scope_consensus` each
response contributes at most one vote and the total vote count never exceeds
the number of responses; the live driver path instead counts every pattern
match, as `size: s` shows (two votes there, one vote here). -/
theorem scope_extraction_dedup :
    (∀ (s v : String), extract_scope_from_response s = some v →
        v ∈ (["XS", "S", "M", "L", "XL"] : List String))
  ∧ (∀ r : IssueResult, sumCounts (get_scope_consensus r).2 ≤ r.responses.length)
  ∧ extract_scope_from_response "size: s" = some "S"
  ∧ extract_size_estimates "size: s" = ["S", "S"] := by
  refine ⟨fun s v h => extract_scope_mem h, ?_, by decide, by decide⟩
  intro r
  have hle : sumCounts (scope_votes r.responses) ≤ r.responses.length := by
    have h1 := scope_votes_foldl_le r.responses []
    simpa [scope_votes, sumCounts] using h1
  simp only [get_scope_consensus]
  cases hp : pickTop (scope_votes r.responses) with
  | none =>
    simp [sumCounts]
  | some q =>
    obtain ⟨ts, tc⟩ := q
    dsimp only
    split_ifs <;> exact hle

/-- Witness for C10: the first-match membership applied at the concrete
response `size: s`. -/
theorem scope_extraction_dedup_witness :
    "S" ∈ (["XS", "S", "M", "L", "XL"] : List String) :=
  scope_extraction_dedup.1 "size: s" "S" (by decide)

/-- Witness for C2: the majority branch instantiated at the {M:3, S:2}
vote list. -/
theorem size_label_majority_witness :
    ∃ s, s ∈ ["M", "M", "M", "S", "S"] ∧
      (["M", "M", "M", "S", "S"] : List String).count s = topCnt ["M", "M", "M", "S", "S"] ∧
      size_label ["M", "M", "M", "S", "S"] = some ("scope:" ++ s) :=
  (size_label_majority.1 ["M", "M", "M", "S", "S"] (by decide)).1 (by decide)

/-- C7: for every transcript text, the label list produced by
`analyze_results` contains exactly one of `needs-clarification` or
`actionable`, and it contains `needs-clarification` if and only if the text
contains, case-insensitively, at least one of the seven fixed hedge
phrases. -/
theorem analyze_labels_clarification (s : String) :
    ((analyze_results_labels s).count "needs-clarification"
      + (analyze_results_labels s).count "actionable" = 1)
  ∧ ("needs-clarification" ∈ analyze_results_labels s ↔
      ∃ p ∈ hedgePhrases, containsCI p s.toList = true) := by
  have hiff : (extract_open_questions s = true) ↔
      ∃ p ∈ hedgePhrases, containsCI p s.toList = true := by
    simp [extract_open_questions, List.any_eq_true]
  cases hsl : size_label (extract_size_estimates s) with
  | none =>
    cases hq : extract_open_questions s with
    | false =>
      have hlab : analyze_results_labels s = ["actionable"] := by
        simp [analyze_results_labels, hsl, hq]
      rw [hlab]
      refine ⟨by decide, ?_⟩
      rw [← hiff, hq]
      decide
    | true =>
      have hlab : analyze_results_labels s = ["needs-clarification"] := by
        simp [analyze_results_labels, hsl, hq]
      rw [hlab]
      refine ⟨by decide, ?_⟩
      rw [← hiff, hq]
      decide
  | some v =>
    have hv := size_label_mem (extract_sizes_subset s) hsl
    cases hq : extract_open_questions s with
    | false =>
      have hlab : analyze_results_labels s = [v, "actionable"] := by
        simp [analyze_results_labels, hsl, hq]
      rw [hlab]
      refine ⟨?_, ?_⟩
      · fin_cases hv <;> decide
      · rw [← hiff, hq]
        fin_cases hv <;> decide
    | true =>
      have hlab : analyze_results_labels s = [v, "needs-clarification"] := by
        simp [analyze_results_labels, hsl, hq]
      rw [hlab]
      refine ⟨?_, ?_⟩
      · fin_cases hv <;> decide
      · rw [← hiff, hq]
        fin_cases hv <;> decide

section

attribute [local semireducible] Rat.add Rat.mul Rat.inv Rat.sub

set_option maxRecDepth 40000 in
/-- C6: the synthetic transcript with three contestant status lines (two
DONE, one FAILED) parses to exactly three attempt records, the two DONE ones
with elapsed time, token count and throughput populated, the FAILED one with
status `failed` and no numeric fields; the absent WINNER line leaves the
winner field unset instead of raising. -/
theorem parse_three_contestants :
    parse_results_file transcript3 = Except.ok
      { models := [
          { name := "alpha", model := "model-a", status := "done",
            time := some (25 / 2), tokens := some 300, toks := some 24 },
          { name := "beta", model := "model-b", status := "done",
            time := some 8, tokens := some 100, toks := some (25 / 2) },
          { name := "gamma", model := "model-c", status := "failed",
            time := none, tokens := none, toks := none }],
        winner := none, responses := [] } := by decide

end

/-- Counterexample to C4 as stated: the transcript
`WINNER: x wins with 1.2.3s` contains zero recognizable contestant entries
(no status-line matches and no response sections), yet `parse_results_file`
raises a `ValueError` (Python `float("1.2.3")`) instead of returning the
empty result. -/
theorem parse_empty_transcript_cex :
    statusMatches "WINNER: x wins with 1.2.3s" = []
  ∧ responseMatches "WINNER: x wins with 1.2.3s" = []
  ∧ parse_results_file "WINNER: x wins with 1.2.3s" =
      Except.error "ValueError: could not convert string to float" := by decide

/-- C4 (amended): for every transcript string with zero recognizable
contestant entries and whose WINNER extraction does not produce a malformed
float literal, parsing returns a result with an empty attempts list and an
empty responses map without raising, and the downstream consensus
computation on that result returns no scope and an empty vote tally. -/
theorem parse_empty_transcript (content : String)
    (hs : statusMatches content = [])
    (hr : responseMatches content = [])
    (hw : winnerOk content = true) :
    ∃ res, parse_results_file content = Except.ok res ∧
      res.models = [] ∧ res.responses = [] ∧
      get_scope_consensus res = (none, []) := by
  have hresp : (responseMatches content).foldl (fun d p => dictInsert d p.1 p.2) [] = [] := by
    simp [hr]
  unfold parse_results_file
  cases hwr : winnerRaw content with
  | none =>
    refine ⟨_, rfl, hs, hresp, ?_⟩
    try rw [hresp]
    rfl
  | some p =>
    obtain ⟨nm, ds⟩ := p
    unfold winnerOk at hw
    rw [hwr] at hw
    dsimp only at hw ⊢
    cases hv : pyFloatDD ds with
    | none =>
      rw [hv] at hw
      simp at hw
    | some q =>
      refine ⟨_, rfl, hs, hresp, ?_⟩
      try rw [hresp]
      rfl

theorem not_jsonl_gz (f : String) : endsWithL ".jsonl" (f ++ ".gz") = false := by
  unfold endsWithL
  by_contra hc
  rw [Bool.not_eq_false] at hc
  have hsfx : ".jsonl".toList <:+ (f ++ ".gz").toList := List.isSuffixOf_iff_suffix.mp hc
  obtain ⟨t, ht⟩ := hsfx
  have hlist : (f ++ ".gz").toList = f.toList ++ ".gz".toList := by
    show (f ++ ".gz").data = f.data ++ ".gz".data
    exact String.data_append f ".gz"
  rw [hlist] at ht
  have hrev := congrArg List.reverse ht
  simp only [List.reverse_append] at hrev
  have : (".jsonl".toList.reverse ++ t.reverse).head? =
      (".gz".toList.reverse ++ f.toList.reverse).head? := by rw [hrev]
  simp at this

theorem logShouldCompress_gz (now : Int) (f : String) :
    logShouldCompress now (f ++ ".gz") = false := by
  unfold logShouldCompress
  rw [not_jsonl_gz]
  rfl

theorem compress_step_idem (now : Int) (f : String) :
    (if logShouldCompress now (if logShouldCompress now f then f ++ ".gz" else f)
     then (if logShouldCompress now f then f ++ ".gz" else f) ++ ".gz"
     else (if logShouldCompress now f then f ++ ".gz" else f)) =
    (if logShouldCompress now f then f ++ ".gz" else f) := by
  by_cases hf : logShouldCompress now f = true
  · simp only [hf, if_true]
    rw [if_neg]
    rw [logShouldCompress_gz]
    exact Bool.false_ne_true
  · have hf2 : logShouldCompress now f = false := by simpa using hf
    simp only [hf2, Bool.false_eq_true, if_false]

/-- C9: for every directory-tree state (names of dated raw-artifact
directories and of log files), running `cleanup_old_data` twice at the same
reference time gives the same end state as running it once, and entries
whose names do not parse as dates are unchanged by either run. -/
theorem cleanup_idempotent :
    (∀ (now : Int) (st : FsState),
      cleanup_old_data now (cleanup_old_data now st) = cleanup_old_data now st)
  ∧ (∀ (now : Int) (st : FsState) (n : String), n ∈ st.rawDirs → nameDate n = none →
      n ∈ (cleanup_old_data now st).rawDirs)
  ∧ (∀ (now : Int) (st : FsState) (f : String), f ∈ st.logFiles → logNameDate f = none →
      f ∈ (cleanup_old_data now st).logFiles) := by
  refine ⟨?_, ?_, ?_⟩
  · intro now st
    unfold cleanup_old_data
    dsimp only
    refine congrArg₂ FsState.mk ?_ ?_
    · exact List.filter_eq_self.mpr (fun a ha => (List.mem_filter.mp ha).2)
    · rw [List.map_map]
      refine List.map_congr_left ?_
      intro f _
      simp only [Function.comp_apply]
      exact compress_step_idem now f
  · intro now st n hn hd
    unfold cleanup_old_data
    dsimp only
    refine List.mem_filter.mpr ⟨hn, ?_⟩
    simp [rawShouldDelete, hd]
  · intro now st f hf hd
    have hid : (if logShouldCompress now f then f ++ ".gz" else f) = f := by
      rw [if_neg]
      unfold logShouldCompress
      rw [hd]
      simp
    unfold cleanup_old_data
    dsimp only
    rw [← hid]
    exact List.mem_map_of_mem _ hf

/-- Witness for C9: the non-date preservation branch applied at a concrete
state holding one directory whose name does not parse as a date. -/
theorem cleanup_idempotent_witness :
    "nodate" ∈ (cleanup_old_data 0 ⟨["nodate"], []⟩).rawDirs :=
  cleanup_idempotent.2.1 0 ⟨["nodate"], []⟩ "nodate" (by decide) (by decide)

/-- Witness for C4 (amended): applied at a concrete hedge-free transcript
with no contestant entries and no WINNER line. -/
theorem parse_empty_transcript_witness :
    ∃ res, parse_results_file "no contestants here" = Except.ok res ∧
      res.models = [] ∧ res.responses = [] ∧
      get_scope_consensus res = (none, []) :=
  parse_empty_transcript "no contestants here" (by decide) (by decide) (by decide)

/-- C8: for every response string, the quality score is the sum of the five
indicator points (fenced code block, implementation-plan marker, diagram
block, open-question language, parseable scope token), lies between 0 and 5,
and the response is listed among the weak responses exactly when its score
is at most 1 and its token count exceeds the non-trivial threshold of 50. -/
theorem score_response_spec (s : String) :
    (score_response s).total_score =
      b2n (score_response s).has_code + b2n (score_response s).has_plan +
      b2n (score_response s).has_diagram + b2n (score_response s).has_questions +
      b2n (score_response s).has_scope
  ∧ (score_response s).total_score ≤ 5
  ∧ (weak_listed s = true ↔
      (score_response s).total_score ≤ 1 ∧ 50 < (score_response s).tokens) := by
  refine ⟨rfl, ?_, ?_⟩
  · have h1 := b2n_le_one (reHas codeAt s)
    have h2 := b2n_le_one (reHas planAt s)
    have h3 := b2n_le_one (reHas diagramAt s)
    have h4 := b2n_le_one (reHas questionsAt s)
    have h5 := b2n_le_one (extract_scope_from_response s).isSome
    show b2n _ + b2n _ + b2n _ + b2n _ + b2n _ ≤ 5
    omega
  · simp only [weak_listed]
    split_ifs with h1 h2 <;> simp_all <;> omega

end Clood
